import Mathlib

/-
Verification of the contact-book core (src/home1.py): field validators
(Phone, Birthday), Record operations, the AddressBook, and the
upcoming-birthdays query with its weekend-shift rule.
-/

namespace ContactBook

/-- Unicode decimal-digit (general category Nd) code-point ranges.
Python's regex class \d on str patterns (used in Phone.__init__ and
Birthday.__init__) matches exactly the characters of category Nd, not
only the ASCII digits 0-9. Each entry is an inclusive range; every
range is a sequence of runs 0..9 aligned so that the digit value of a
character is its offset from the range start modulo 10. -/
def ndRanges : List (Nat × Nat) :=
  [(0x30, 0x39), (0x660, 0x669), (0x6F0, 0x6F9), (0x7C0, 0x7C9),
   (0x966, 0x96F), (0x9E6, 0x9EF), (0xA66, 0xA6F), (0xAE6, 0xAEF),
   (0xB66, 0xB6F), (0xBE6, 0xBEF), (0xC66, 0xC6F), (0xCE6, 0xCEF),
   (0xD66, 0xD6F), (0xDE6, 0xDEF), (0xE50, 0xE59), (0xED0, 0xED9),
   (0xF20, 0xF29), (0x1040, 0x1049), (0x1090, 0x1099), (0x17E0, 0x17E9),
   (0x1810, 0x1819), (0x1946, 0x194F), (0x19D0, 0x19D9), (0x1A80, 0x1A89),
   (0x1A90, 0x1A99), (0x1B50, 0x1B59), (0x1BB0, 0x1BB9), (0x1C40, 0x1C49),
   (0x1C50, 0x1C59), (0xA620, 0xA629), (0xA8D0, 0xA8D9), (0xA900, 0xA909),
   (0xA9D0, 0xA9D9), (0xA9F0, 0xA9F9), (0xAA50, 0xAA59), (0xABF0, 0xABF9),
   (0xFF10, 0xFF19), (0x104A0, 0x104A9), (0x10D30, 0x10D39),
   (0x11066, 0x1106F), (0x110F0, 0x110F9), (0x11136, 0x1113F),
   (0x111D0, 0x111D9), (0x112F0, 0x112F9), (0x11450, 0x11459),
   (0x114D0, 0x114D9), (0x11650, 0x11659), (0x116C0, 0x116C9),
   (0x11730, 0x11739), (0x118E0, 0x118E9), (0x11950, 0x11959),
   (0x11C50, 0x11C59), (0x11D50, 0x11D59), (0x11DA0, 0x11DA9),
   (0x11F50, 0x11F59), (0x16A60, 0x16A69), (0x16AC0, 0x16AC9),
   (0x16B50, 0x16B59), (0x1D7CE, 0x1D7FF), (0x1E140, 0x1E149),
   (0x1E2F0, 0x1E2F9), (0x1E4F0, 0x1E4F9), (0x1E950, 0x1E959),
   (0x1FBF0, 0x1FBF9)]

/-- Whether a character is matched by Python's \d (Unicode category Nd). -/
def isPyDigit (c : Char) : Bool :=
  ndRanges.any (fun r => decide (r.1 ≤ c.toNat ∧ c.toNat ≤ r.2))

/-- Decimal value of an Nd character, as used by Python's int(). -/
def pyDigitVal (c : Char) : Nat :=
  match ndRanges.find? (fun r => decide (r.1 ≤ c.toNat ∧ c.toNat ≤ r.2)) with
  | some r => (c.toNat - r.1) % 10
  | none => 0

/-- Base-10 accumulation of digit values over a character list. -/
def pyIntCore : List Char → Nat → Option Nat
  | [], acc => some acc
  | c :: rest, acc =>
    if isPyDigit c then pyIntCore rest (acc * 10 + pyDigitVal c) else none

/-- Python's int() restricted to the call sites of this program: on a
non-empty string of decimal digits it returns the base-10 value, on
anything else it raises (modelled as none). -/
def pyInt (cs : List Char) : Option Nat :=
  match cs with
  | [] => none
  | _ => pyIntCore cs 0

/-- Gregorian leap-year rule, as implemented by Python's datetime. -/
def isLeap (y : Nat) : Bool :=
  decide (y % 4 = 0 ∧ (y % 100 ≠ 0 ∨ y % 400 = 0))

/-- Number of days in a month of a given year. -/
def daysInMonth (y m : Nat) : Nat :=
  if m = 2 then (if isLeap y then 29 else 28)
  else if m = 4 ∨ m = 6 ∨ m = 9 ∨ m = 11 then 30
  else 31

/-- The (year, month, day) triples accepted by Python's
datetime(year, month, day) constructor: MINYEAR = 1 <= year <= 9999 =
MAXYEAR, 1 <= month <= 12, 1 <= day <= days in that month. -/
def dateValid (y m d : Nat) : Bool :=
  decide (1 ≤ y ∧ y ≤ 9999 ∧ 1 ≤ m ∧ m ≤ 12 ∧ 1 ≤ d ∧ d ≤ daysInMonth y m)

/-- A calendar date, the model of Python's datetime.date. -/
structure Date where
  year : Nat
  month : Nat
  day : Nat
deriving DecidableEq, Repr

/-- Model of datetime(year, month, day).date(): some date on valid
input, none where Python raises ValueError. -/
def mkDate (y m d : Nat) : Option Date :=
  if dateValid y m d then some ⟨y, m, d⟩ else none

/-- Days in all years strictly before year y (proleptic Gregorian),
matching Python's date.toordinal year part. -/
def daysBeforeYear (y : Nat) : Nat :=
  365 * (y - 1) + (y - 1) / 4 - (y - 1) / 100 + (y - 1) / 400

/-- One extra day in leap years. -/
def leapBit (y : Nat) : Nat := if isLeap y then 1 else 0

/-- Days in the months of year y strictly before month m. -/
def daysBeforeMonth (y m : Nat) : Nat :=
  if m ≤ 1 then 0
  else if m = 2 then 31
  else if m = 3 then 59 + leapBit y
  else if m = 4 then 90 + leapBit y
  else if m = 5 then 120 + leapBit y
  else if m = 6 then 151 + leapBit y
  else if m = 7 then 181 + leapBit y
  else if m = 8 then 212 + leapBit y
  else if m = 9 then 243 + leapBit y
  else if m = 10 then 273 + leapBit y
  else if m = 11 then 304 + leapBit y
  else if m = 12 then 334 + leapBit y
  else 365 + leapBit y

/-- Python's date.toordinal(): day number with 0001-01-01 as day 1.
Date comparison and timedelta subtraction in the source both coincide
with comparison and subtraction of ordinals. -/
def toOrdinal (dt : Date) : Nat :=
  daysBeforeYear dt.year + daysBeforeMonth dt.year dt.month + dt.day

/-- Python's date.weekday(): Monday = 0 .. Sunday = 6. -/
def weekday (dt : Date) : Nat := (toOrdinal dt + 6) % 7

/-- Calendar successor of a date. -/
def nextDay (dt : Date) : Date :=
  if dt.day < daysInMonth dt.year dt.month then ⟨dt.year, dt.month, dt.day + 1⟩
  else if dt.month < 12 then ⟨dt.year, dt.month + 1, 1⟩
  else ⟨dt.year + 1, 1, 1⟩

/-- Model of date + timedelta(days = k) for k >= 0 (range check of the
result is done at the call site, as Python raises only on overflow past
date.max). -/
def addDays (dt : Date) : Nat → Date
  | 0 => dt
  | k + 1 => nextDay (addDays dt k)

/-- Two-digit zero padding, as in strftime %d and %m. -/
def pad2 (n : Nat) : String :=
  if n < 10 then "0" ++ toString n else toString n

/-- Four-digit zero padding for the year, as in strftime %Y. -/
def pad4 (n : Nat) : String :=
  if n < 10 then "000" ++ toString n
  else if n < 100 then "00" ++ toString n
  else if n < 1000 then "0" ++ toString n
  else toString n

/-- strftime("%d.%m.%Y") on a date. -/
def formatDate (dt : Date) : String :=
  pad2 dt.day ++ "." ++ pad2 dt.month ++ "." ++ pad4 dt.year

/-- The check of Phone.__init__: re.fullmatch(r"\d{10}", value), i.e.
exactly ten characters, each matched by \d. -/
def phoneFormat (s : String) : Bool :=
  s.data.length == 10 && s.data.all isPyDigit

/-- Phone.__init__ : stores the value on success, raises
ValueError("Phone number must be exactly 10 digits.") otherwise. -/
def parsePhone (s : String) : Except String String :=
  if phoneFormat s then Except.ok s
  else Except.error "Phone number must be exactly 10 digits."

/-- The check of Birthday.__init__'s regex
re.fullmatch(r"\d{2}\.\d{2}\.\d{4}", value): two \d characters, a dot,
two \d characters, a dot, four \d characters. -/
def birthdayFormat (s : String) : Bool :=
  match s.data with
  | [a, b, c, d, e, f, g, h, i, j] =>
    isPyDigit a && isPyDigit b && c == '.' && isPyDigit d && isPyDigit e &&
    f == '.' && isPyDigit g && isPyDigit h && isPyDigit i && isPyDigit j
  | _ => false

/-- value.split('.') on the character list of a string. -/
def splitOnDot : List Char → List (List Char)
  | [] => [[]]
  | c :: rest =>
    match splitOnDot rest with
    | [] => [[]]
    | hd :: tl => if c == '.' then [] :: hd :: tl else (c :: hd) :: tl

/-- day, month, year = map(int, value.split('.')): some triple when the
string splits on '.' into exactly three int()-parsable parts, none where
Python would raise. -/
def birthdayParts (s : String) : Option (Nat × Nat × Nat) :=
  match splitOnDot s.data with
  | [a, b, c] =>
    match pyInt a, pyInt b, pyInt c with
    | some d, some m, some y => some (d, m, y)
    | _, _, _ => none
  | _ => none

/-- Birthday.__init__: regex check first
(ValueError("Invalid date format. Use DD.MM.YYYY") on mismatch), then
datetime(year, month, day) (ValueError("Invalid date.") when that
raises); on success the raw string is stored. -/
def parseBirthday (s : String) : Except String String :=
  if birthdayFormat s then
    match birthdayParts s with
    | some (d, m, y) =>
      if dateValid y m d then Except.ok s else Except.error "Invalid date."
    | none => Except.error "Invalid date."
  else Except.error "Invalid date format. Use DD.MM.YYYY"

/-- A contact record: one name, an ordered list of phone values, an
optional stored birthday string ("DD.MM.YYYY"). -/
structure Record where
  name : String
  phones : List String
  birthday : Option String
deriving DecidableEq, Repr

/-- Record.add_phone: Phone(phone_number) is constructed (raising on a
bad format) and only then appended, so the pair is (state after the
call, error if any). -/
def Record.add_phone (r : Record) (phone : String) : Record × Option String :=
  match parsePhone phone with
  | Except.ok p => ({ r with phones := r.phones ++ [p] }, none)
  | Except.error e => (r, some e)

/-- Record.remove_phone: keeps exactly the phones whose value differs
from the argument; a no-op when none match. -/
def Record.remove_phone (r : Record) (phone : String) : Record :=
  { r with phones := r.phones.filter (fun p => !(p == phone)) }

/-- The loop of Record.edit_phone on the phone list: at the first
element equal to old, Phone(new) is constructed (raising on a bad
format) and its value assigned in place; if the loop ends without a
match, ValueError("Phone number not found.") is raised. Returns the
list state after the call and the error if any. -/
def edit_list (phones : List String) (old new : String) :
    List String × Option String :=
  match phones with
  | [] => ([], some "Phone number not found.")
  | p :: rest =>
    if p == old then
      match parsePhone new with
      | Except.ok np => (np :: rest, none)
      | Except.error e => (p :: rest, some e)
    else
      match edit_list rest old new with
      | (rest', err) => (p :: rest', err)

/-- Record.edit_phone, lifted from the list loop to the record. -/
def Record.edit_phone (r : Record) (old new : String) :
    Record × Option String :=
  match edit_list r.phones old new with
  | (ps, err) => ({ r with phones := ps }, err)

/-- Record.find_phone: first phone equal to the argument, if any. -/
def Record.find_phone (r : Record) (phone : String) : Option String :=
  r.phones.find? (fun p => p == phone)

/-- Record.add_birthday: Birthday(date) is constructed (raising on bad
input) and then assigned, overwriting any previous birthday. -/
def Record.add_birthday (r : Record) (date : String) :
    Record × Option String :=
  match parseBirthday date with
  | Except.ok b => ({ r with birthday := some b }, none)
  | Except.error e => (r, some e)

/-- The AddressBook's backing store: an insertion-ordered mapping from
name to record, modelled as a list of records with unique names. -/
abbrev AddressBook := List Record

/-- self.data[record.name.value] = record on an insertion-ordered dict:
replaces in place when the key exists, appends otherwise. -/
def add_record (book : AddressBook) (r : Record) : AddressBook :=
  if (List.any book fun x => x.name == r.name) then
    List.map (fun x => if x.name == r.name then r else x) book
  else
    List.append book [r]

/-- AddressBook.find: self.data.get(name). -/
def find (book : AddressBook) (name : String) : Option Record :=
  List.find? (fun r => r.name == name) book

/-- AddressBook.delete: removes the record under the name if present. -/
def delete (book : AddressBook) (name : String) : AddressBook :=
  List.filter (fun r => !(r.name == name)) book

/-- Lines 87-89 of the query: birthday_this_year =
datetime(today.year, month, day).date(), rolled to
datetime(today.year + 1, month, day).date() when strictly before today;
none where either construction raises ValueError. -/
def occurrence (today : Date) (m d : Nat) : Option Date :=
  match mkDate today.year m d with
  | none => none
  | some b0 =>
    if toOrdinal b0 < toOrdinal today then mkDate (today.year + 1) m d
    else some b0

/-- The weekend shift of the query: if the celebration date falls on
Saturday (5) or Sunday (6), move it forward by 7 - weekday days to the
following Monday. -/
def greetingDay (bty : Date) : Date :=
  if 5 ≤ weekday bty then addDays bty (7 - weekday bty) else bty

/-- The body of the get_upcoming_birthdays loop for one record: ok none
when the record contributes nothing, ok (some (name, greeting day)) when
it is included, error when Python raises (29.02 in a non-leap target
year, or the shifted date overflowing past date.max). -/
def processRecord (today : Date) (r : Record) :
    Except String (Option (String × Date)) :=
  match r.birthday with
  | none => Except.ok none
  | some s =>
    match birthdayParts s with
    | none => Except.error "invalid literal for int() with base 10"
    | some (d, m, _) =>
      match occurrence today m d with
      | none => Except.error "day is out of range for month"
      | some bty =>
        if (toOrdinal bty : Int) - (toOrdinal today : Int) ≤ 7 then
          if (greetingDay bty).year ≤ 9999 then
            Except.ok (some (r.name, greetingDay bty))
          else Except.error "date value out of range"
        else Except.ok none

/-- AddressBook.get_upcoming_birthdays up to formatting: the list of
(name, greeting day) entries in record order; an exception at any
record aborts the whole query. -/
def upcomingList (today : Date) (book : AddressBook) :
    Except String (List (String × Date)) :=
  match book with
  | [] => Except.ok []
  | r :: rest =>
    match processRecord today r with
    | Except.error e => Except.error e
    | Except.ok hd =>
      match upcomingList today rest with
      | Except.error e => Except.error e
      | Except.ok tl =>
        Except.ok (match hd with
                   | some e => e :: tl
                   | none => tl)

/-- AddressBook.get_upcoming_birthdays: the final string, one
"name - DD.MM.YYYY" line per included record, or the sentinel when no
record qualifies. -/
def get_upcoming_birthdays (today : Date) (book : AddressBook) :
    Except String String :=
  Except.map
    (fun l =>
      match l with
      | [] => "No upcoming birthdays."
      | _ => String.intercalate "\n"
          (List.map (fun e : String × Date => e.1 ++ " - " ++ formatDate e.2) l))
    (upcomingList today book)

/-- The add command branch of main(): find the record, create and insert
an empty one when absent, then record.add_phone(phone). The inserted
record stays in the book even when add_phone then raises, exactly as in
the source (the dict entry is created before the phone is validated). -/
def cmd_add (book : AddressBook) (name phone : String) :
    AddressBook × Option String :=
  match find book name with
  | some r =>
    match Record.add_phone r phone with
    | (r', err) => (add_record book r', err)
  | none =>
    match Record.add_phone ⟨name, [], none⟩ phone with
    | (r', err) => (add_record (add_record book ⟨name, [], none⟩) r', err)

/-- The change command branch of main(): edit_phone on the found record;
"Contact not found." is printed, not raised, when the name is absent. -/
def cmd_change (book : AddressBook) (name old new : String) :
    AddressBook × Option String :=
  match find book name with
  | some r =>
    match Record.edit_phone r old new with
    | (r', err) => (add_record book r', err)
  | none => (book, none)

/-- The add-birthday command branch of main(). -/
def cmd_add_birthday (book : AddressBook) (name date : String) :
    AddressBook × Option String :=
  match find book name with
  | some r =>
    match Record.add_birthday r date with
    | (r', err) => (add_record book r', err)
  | none => (book, none)

/-- All phone values stored in a list satisfy the Phone format. -/
def PhonesOK (l : List String) : Prop :=
  ∀ p ∈ l, phoneFormat p = true

/-- All phone values stored in a record satisfy the Phone format. -/
def RecordOK (r : Record) : Prop := PhonesOK r.phones

/-- All phone values stored anywhere in the book satisfy the format. -/
def BookOK (book : AddressBook) : Prop := ∀ r ∈ book, RecordOK r

/-- In-range day/month/year, without the year-9999 cap (used for the
ordinal arithmetic, which is independent of the cap). -/
def DateOk (dt : Date) : Prop :=
  1 ≤ dt.year ∧ 1 ≤ dt.month ∧ dt.month ≤ 12 ∧ 1 ≤ dt.day ∧
    dt.day ≤ daysInMonth dt.year dt.month

/-- Every month has at least one day. -/
theorem daysInMonth_pos (y m : Nat) : 1 ≤ daysInMonth y m := by
  unfold daysInMonth
  split
  · split <;> omega
  · split <;> omega

/-- Every month has at most 31 days. -/
theorem daysInMonth_le (y m : Nat) : daysInMonth y m ≤ 31 := by
  unfold daysInMonth
  split
  · split <;> omega
  · split <;> omega

/-- The day count of a year is 365 plus its leap bit. -/
theorem daysBeforeYear_succ (y : Nat) (hy : 1 ≤ y) :
    daysBeforeYear (y + 1) = daysBeforeYear y + 365 + leapBit y := by
  obtain ⟨a, rfl⟩ : ∃ a, y = a + 1 := ⟨y - 1, by omega⟩
  unfold daysBeforeYear leapBit isLeap
  simp only [Nat.add_sub_cancel, decide_eq_true_eq]
  rw [Nat.succ_div a 4, Nat.succ_div a 100, Nat.succ_div a 400]
  by_cases h100 : (100 : Nat) ∣ a + 1
  · have h4 : (4 : Nat) ∣ a + 1 := dvd_trans (by norm_num) h100
    by_cases h400 : (400 : Nat) ∣ a + 1
    · rw [if_pos h4, if_pos h100, if_pos h400, if_pos (by omega)]
      omega
    · rw [if_pos h4, if_pos h100, if_neg h400, if_neg (by omega)]
      omega
  · have h400 : ¬ (400 : Nat) ∣ a + 1 := fun hc => h100 (dvd_trans (by norm_num) hc)
    by_cases h4 : (4 : Nat) ∣ a + 1
    · rw [if_pos h4, if_neg h100, if_neg h400, if_pos (by omega)]
      omega
    · rw [if_neg h4, if_neg h100, if_neg h400, if_neg (by omega)]
      omega

/-- Cumulative month lengths step by the length of the month. -/
theorem daysBeforeMonth_succ (y m : Nat) (h1 : 1 ≤ m) (h2 : m ≤ 11) :
    daysBeforeMonth y (m + 1) = daysBeforeMonth y m + daysInMonth y m := by
  interval_cases m <;>
    simp only [daysBeforeMonth, daysInMonth] <;>
      norm_num [leapBit] <;> cases isLeap y <;> simp

/-- The calendar successor advances the ordinal by exactly one. -/
theorem toOrdinal_nextDay (dt : Date) (h : DateOk dt) :
    toOrdinal (nextDay dt) = toOrdinal dt + 1 := by
  obtain ⟨hy, hm1, hm2, hd1, hd2⟩ := h
  unfold nextDay
  split
  · simp only [toOrdinal]
    omega
  · next hlt =>
    split
    · next hm12 =>
      have hd : dt.day = daysInMonth dt.year dt.month := by omega
      simp only [toOrdinal]
      rw [daysBeforeMonth_succ dt.year dt.month hm1 (by omega)]
      omega
    · next hm12 =>
      have hm : dt.month = 12 := by omega
      have hd : dt.day = daysInMonth dt.year dt.month := by omega
      have h12 : daysInMonth dt.year 12 = 31 := by norm_num [daysInMonth]
      have hb1 : daysBeforeMonth (dt.year + 1) 1 = 0 := by
        norm_num [daysBeforeMonth]
      have hb12 : daysBeforeMonth dt.year 12 = 334 + leapBit dt.year := by
        norm_num [daysBeforeMonth]
      simp only [toOrdinal]
      rw [daysBeforeYear_succ dt.year hy, hb1, hm, hb12, hd, hm, h12]
      omega

/-- The calendar successor of an in-range date is in range. -/
theorem DateOk_nextDay (dt : Date) (h : DateOk dt) : DateOk (nextDay dt) := by
  obtain ⟨hy, hm1, hm2, hd1, hd2⟩ := h
  unfold nextDay
  split
  · next hlt =>
    exact ⟨hy, hm1, hm2, by show 1 ≤ dt.day + 1; omega,
      by show dt.day + 1 ≤ daysInMonth dt.year dt.month; omega⟩
  · split
    · exact ⟨hy, by show 1 ≤ dt.month + 1; omega,
        by show dt.month + 1 ≤ 12; omega, le_refl 1,
        daysInMonth_pos dt.year (dt.month + 1)⟩
    · exact ⟨by show 1 ≤ dt.year + 1; omega, le_refl 1, by norm_num,
        le_refl 1, daysInMonth_pos (dt.year + 1) 1⟩

/-- Adding k days advances the ordinal by k and stays in range. -/
theorem toOrdinal_addDays (dt : Date) (h : DateOk dt) (k : Nat) :
    toOrdinal (addDays dt k) = toOrdinal dt + k ∧ DateOk (addDays dt k) := by
  induction k with
  | zero => exact ⟨rfl, h⟩
  | succ n ih =>
    obtain ⟨ho, hok⟩ := ih
    refine ⟨?_, DateOk_nextDay _ hok⟩
    show toOrdinal (nextDay (addDays dt n)) = toOrdinal dt + (n + 1)
    rw [toOrdinal_nextDay _ hok, ho]
    omega

/-- What a successful mkDate returns. -/
theorem mkDate_some {y m d : Nat} {dt : Date} (h : mkDate y m d = some dt) :
    dt = ⟨y, m, d⟩ ∧ dateValid y m d = true := by
  unfold mkDate at h
  split at h
  · exact ⟨(Option.some.inj h).symm, by assumption⟩
  · cases h

/-- A dateValid triple is in range and capped at year 9999. -/
theorem DateOk_of_dateValid {y m d : Nat} (h : dateValid y m d = true) :
    DateOk ⟨y, m, d⟩ ∧ y ≤ 9999 := by
  unfold dateValid at h
  rw [decide_eq_true_eq] at h
  obtain ⟨h1, h2, h3, h4, h5, h6⟩ := h
  exact ⟨⟨h1, h3, h4, h5, h6⟩, h2⟩

/-- A computed celebration occurrence is an in-range date. -/
theorem occurrence_ok {today : Date} {m d : Nat} {bty : Date}
    (h : occurrence today m d = some bty) : DateOk bty ∧ bty.year ≤ 9999 := by
  unfold occurrence at h
  split at h
  · cases h
  · rename_i b0 heq
    split at h
    · obtain ⟨rfl, hv⟩ := mkDate_some h
      exact DateOk_of_dateValid hv
    · rw [Option.some.injEq] at h
      subst h
      obtain ⟨rfl, hv⟩ := mkDate_some heq
      exact DateOk_of_dateValid hv

/-- An entry produced by a record carries that record's name. -/
theorem processRecord_name {today : Date} {r : Record} {e : String × Date}
    (h : processRecord today r = Except.ok (some e)) : e.1 = r.name := by
  unfold processRecord at h
  repeat' split at h
  all_goals simp_all
  rw [← h]

/-- What processRecord does on a record whose stored birthday parses and
whose occurrence computation succeeds. -/
theorem processRecord_eq {today : Date} {r : Record} {s : String} {d m yy : Nat}
    {bty : Date} (hb : r.birthday = some s)
    (hp : birthdayParts s = some (d, m, yy))
    (hocc : occurrence today m d = some bty) :
    processRecord today r =
      if (toOrdinal bty : Int) - (toOrdinal today : Int) ≤ 7 then
        if (greetingDay bty).year ≤ 9999 then
          Except.ok (some (r.name, greetingDay bty))
        else Except.error "date value out of range"
      else Except.ok none := by
  unfold processRecord
  simp only [hb, hp, hocc]

/-- Every record of a book whose query succeeded was itself processed
without error, and its entry, if any, is in the output. -/
theorem upcomingList_ok_of_mem {today : Date} {book : AddressBook}
    {out : List (String × Date)}
    (hok : upcomingList today book = Except.ok out)
    {r : Record} (hr : r ∈ book) :
    ∃ res, processRecord today r = Except.ok res ∧
      ∀ e, res = some e → e ∈ out := by
  induction book generalizing out with
  | nil => cases hr
  | cons hd tl ih =>
    cases hph : processRecord today hd with
    | error e =>
      simp only [upcomingList, hph] at hok
      exact Except.noConfusion hok
    | ok hv =>
      cases hq : upcomingList today tl with
      | error e =>
        simp only [upcomingList, hph, hq] at hok
        exact Except.noConfusion hok
      | ok t =>
        simp only [upcomingList, hph, hq] at hok
        rw [Except.ok.injEq] at hok
        rcases List.mem_cons.mp hr with rfl | hr2
        · refine ⟨hv, hph, fun e he => ?_⟩
          subst he
          subst hok
          exact List.mem_cons_self _ _
        · obtain ⟨res, hres, hmem⟩ := ih hq hr2
          refine ⟨res, hres, fun e he => ?_⟩
          have het : e ∈ t := hmem e he
          cases hv with
          | some e0 =>
            subst hok
            exact List.mem_cons_of_mem _ het
          | none =>
            subst hok
            exact het

/-- Every entry of a successful query's output was produced by some
record of the book. -/
theorem upcomingList_mem_src {today : Date} {book : AddressBook}
    {out : List (String × Date)}
    (hok : upcomingList today book = Except.ok out)
    {e : String × Date} (he : e ∈ out) :
    ∃ r, r ∈ book ∧ processRecord today r = Except.ok (some e) := by
  induction book generalizing out with
  | nil =>
    simp only [upcomingList] at hok
    rw [Except.ok.injEq] at hok
    subst hok
    cases he
  | cons hd tl ih =>
    cases hph : processRecord today hd with
    | error e0 =>
      simp only [upcomingList, hph] at hok
      exact Except.noConfusion hok
    | ok hv =>
      cases hq : upcomingList today tl with
      | error e0 =>
        simp only [upcomingList, hph, hq] at hok
        exact Except.noConfusion hok
      | ok t =>
        simp only [upcomingList, hph, hq] at hok
        rw [Except.ok.injEq] at hok
        cases hv with
        | none =>
          subst hok
          obtain ⟨r, hrmem, hpr⟩ := ih hq he
          exact ⟨r, List.mem_cons_of_mem _ hrmem, hpr⟩
        | some e0 =>
          subst hok
          rcases List.mem_cons.mp he with rfl | he2
          · exact ⟨hd, List.mem_cons_self _ _, hph⟩
          · obtain ⟨r, hrmem, hpr⟩ := ih hq he2
            exact ⟨r, List.mem_cons_of_mem _ hrmem, hpr⟩

/-- In a book with pairwise-distinct names, a name determines the
record. -/
theorem mem_name_unique {book : AddressBook}
    (hnd : (book.map Record.name).Nodup)
    {r r' : Record} (hr : r ∈ book) (hr' : r' ∈ book)
    (hname : r.name = r'.name) : r = r' := by
  induction book with
  | nil => cases hr
  | cons hd tl ih =>
    rw [List.map_cons, List.nodup_cons] at hnd
    obtain ⟨hnin, hnd2⟩ := hnd
    rcases List.mem_cons.mp hr with rfl | hr2 <;>
      rcases List.mem_cons.mp hr' with rfl | hr2'
    · rfl
    · exact absurd (hname ▸ List.mem_map_of_mem Record.name hr2') hnin
    · rw [← hname] at hnin
      exact absurd (List.mem_map_of_mem Record.name hr2) hnin
    · exact ih hnd2 hr2 hr2'

/-- Phone validation succeeds exactly on the ten-Nd-digit format. -/
theorem parsePhone_ok (s : String) (h : phoneFormat s = true) :
    parsePhone s = Except.ok s := by
  unfold parsePhone
  rw [if_pos h]

/-- Phone validation fails with the source's message otherwise. -/
theorem parsePhone_err (s : String) (h : phoneFormat s = false) :
    parsePhone s = Except.error "Phone number must be exactly 10 digits." := by
  unfold parsePhone
  rw [if_neg (by rw [h]; exact Bool.false_ne_true)]

/-- add_phone with a valid phone appends it and reports no error. -/
theorem add_phone_ok (r : Record) (p : String) (h : phoneFormat p = true) :
    Record.add_phone r p = ({ r with phones := r.phones ++ [p] }, none) := by
  unfold Record.add_phone
  rw [parsePhone_ok p h]

/-- add_phone with an invalid phone changes nothing and reports the
validation error. -/
theorem add_phone_err (r : Record) (p : String) (h : phoneFormat p = false) :
    Record.add_phone r p =
      (r, some "Phone number must be exactly 10 digits.") := by
  unfold Record.add_phone
  rw [parsePhone_err p h]

/-- Full case analysis of the edit_phone loop on the phone list: either
old does not occur and the loop raises not-found, or the list splits at
the first occurrence of old and the outcome depends on new's format. -/
theorem edit_list_spec (phones : List String) (old new : String) :
    (old ∉ phones ∧
      edit_list phones old new = (phones, some "Phone number not found.")) ∨
    (∃ l1 l2, phones = l1 ++ old :: l2 ∧ old ∉ l1 ∧
      ((phoneFormat new = true ∧
          edit_list phones old new = (l1 ++ new :: l2, none)) ∨
       (phoneFormat new = false ∧
          edit_list phones old new =
            (phones, some "Phone number must be exactly 10 digits.")))) := by
  induction phones with
  | nil => exact Or.inl ⟨List.not_mem_nil old, rfl⟩
  | cons p rest ih =>
    by_cases hpo : p = old
    · subst hpo
      refine Or.inr ⟨[], rest, rfl, List.not_mem_nil p, ?_⟩
      cases hf : phoneFormat new with
      | true =>
        refine Or.inl ⟨rfl, ?_⟩
        simp only [edit_list, beq_self_eq_true, if_true, parsePhone_ok new hf,
          List.nil_append]
      | false =>
        refine Or.inr ⟨rfl, ?_⟩
        simp only [edit_list, beq_self_eq_true, if_true, parsePhone_err new hf]
    · have hne : ¬ (p == old) = true := by
        rw [beq_iff_eq]
        exact hpo
      rcases ih with ⟨hnm, heq⟩ | ⟨l1, l2, hsplit, hn1, hcase⟩
      · refine Or.inl ⟨?_, ?_⟩
        · intro hmem
          rcases List.mem_cons.mp hmem with h1 | h1
          · exact hpo h1.symm
          · exact hnm h1
        · simp only [edit_list, if_neg hne, heq]
      · refine Or.inr ⟨p :: l1, l2, by rw [hsplit, List.cons_append], ?_, ?_⟩
        · intro hmem
          rcases List.mem_cons.mp hmem with h1 | h1
          · exact hpo h1.symm
          · exact hn1 h1
        · rcases hcase with ⟨hf, heq⟩ | ⟨hf, heq⟩
          · exact Or.inl ⟨hf, by
              simp only [edit_list, if_neg hne, heq, List.cons_append]⟩
          · exact Or.inr ⟨hf, by
              simp only [edit_list, if_neg hne, heq]⟩

/-- A successful find returns a member record carrying the name. -/
theorem find_some {book : AddressBook} {n : String} {r : Record}
    (h : find book n = some r) : r ∈ book ∧ r.name = n := by
  unfold find at h
  refine ⟨List.mem_of_find?_eq_some h, ?_⟩
  have := List.find?_some h
  rwa [beq_iff_eq] at this

/-- An empty find means no member record carries the name. -/
theorem find_none {book : AddressBook} {n : String}
    (h : find book n = none) : ∀ r ∈ book, r.name ≠ n := by
  unfold find at h
  intro r hr
  have := List.find?_eq_none.mp h r hr
  rwa [beq_iff_eq] at this

/-- Inserting a fresh name appends the record at the end. -/
theorem add_record_fresh {book : AddressBook} {r : Record}
    (h : ∀ x ∈ book, x.name ≠ r.name) : add_record book r = book ++ [r] := by
  unfold add_record
  rw [if_neg]
  · rfl
  · intro hc
    obtain ⟨x, hx, hpx⟩ := List.any_eq_true.mp hc
    exact h x hx (by rwa [beq_iff_eq] at hpx)

/-- Replacement at an absent key changes nothing. -/
theorem map_replace_none {book : AddressBook} {r : Record}
    (h : ∀ x ∈ book, x.name ≠ r.name) :
    List.map (fun x => if x.name == r.name then r else x) book = book := by
  induction book with
  | nil => rfl
  | cons hd tl ih =>
    rw [List.map_cons,
      if_neg (by rw [beq_iff_eq]; exact h hd (List.mem_cons_self _ _)),
      ih fun x hx => h x (List.mem_cons_of_mem _ hx)]

/-- Re-inserting under an existing name replaces the one record with
that name and keeps every other record in place. -/
theorem add_record_replace {book : AddressBook} {rOld rNew : Record}
    (h : ∀ x ∈ book, x.name ≠ rNew.name) (hname : rOld.name = rNew.name) :
    add_record (book ++ [rOld]) rNew = book ++ [rNew] := by
  unfold add_record
  rw [if_pos]
  · rw [List.map_append, map_replace_none h]
    simp only [List.map_cons, List.map_nil, hname, beq_self_eq_true, if_true]
  · refine List.any_eq_true.mpr
      ⟨rOld, List.mem_append_right _ (List.mem_cons_self _ _), ?_⟩
    rw [beq_iff_eq]
    exact hname

/-- find after appending a record with the sought, otherwise absent,
name yields that record. -/
theorem find_append_fresh {book : AddressBook} {r : Record} {n : String}
    (h : ∀ x ∈ book, x.name ≠ n) (hr : r.name = n) :
    find (book ++ [r]) n = some r := by
  induction book with
  | nil =>
    unfold find
    rw [List.nil_append, List.find?_cons_of_pos]
    rw [beq_iff_eq]
    exact hr
  | cons hd tl ih =>
    unfold find at *
    rw [List.cons_append, List.find?_cons_of_neg]
    · exact ih fun x hx => h x (List.mem_cons_of_mem _ hx)
    · rw [beq_iff_eq]
      exact h hd (List.mem_cons_self _ _)

/-- Whether the split-and-int parts of a stored birthday string form a
date accepted by datetime(year, month, day). -/
def birthdayOk (s : String) : Bool :=
  match birthdayParts s with
  | some (d, m, y) => dateValid y m d
  | none => false

/-- Closed form of Birthday.__init__'s outcome. -/
theorem parseBirthday_eq (s : String) :
    parseBirthday s =
      if birthdayFormat s then
        if birthdayOk s then Except.ok s else Except.error "Invalid date."
      else Except.error "Invalid date format. Use DD.MM.YYYY" := by
  unfold parseBirthday birthdayOk
  cases hf : birthdayFormat s with
  | false => simp
  | true =>
    cases hbp : birthdayParts s with
    | none => simp
    | some t =>
      obtain ⟨d, m, y⟩ := t
      simp

/-- Ten ARABIC-INDIC DIGIT ZERO characters (U+0660): each is matched by
Python's \d, none is an ASCII digit. -/
def arabicTenDigits : String := String.mk (List.replicate 10 (Char.ofNat 0x660))

/-- Auxiliary: filtering away a value not present leaves a list
unchanged. -/
theorem filter_ne_of_not_mem {l : List String} {v : String} (h : v ∉ l) :
    l.filter (fun p => !(p == v)) = l := by
  induction l with
  | nil => rfl
  | cons p rest ih =>
    have hpa : (!(p == v)) = true := by
      rw [Bool.not_eq_true', beq_eq_false_iff_ne]
      intro he
      subst he
      exact h (List.mem_cons_self _ _)
    rw [List.filter_cons, if_pos hpa,
      ih fun hm => h (List.mem_cons_of_mem _ hm)]

/-- Auxiliary: the removed value never survives the filter. -/
theorem not_mem_filter_self {l : List String} {v : String} :
    v ∉ l.filter (fun p => !(p == v)) := by
  intro hm
  have h2 := (List.mem_filter.mp hm).2
  simp at h2

/-- C4 (counterexample): the claim restricts successful phone parsing
to ASCII-digit strings, but a ten-character string of ARABIC-INDIC
digits, none of which is an ASCII digit, is accepted by
Phone.__init__'s regex \d{10}. -/
theorem phone_parse_accepts_nonascii_digits :
    parsePhone arabicTenDigits = Except.ok arabicTenDigits ∧
    arabicTenDigits.data.length = 10 ∧
    arabicTenDigits.data.all Char.isDigit = false := by
  refine ⟨rfl, by decide, by decide⟩

/-- C4 (amended): phone parsing succeeds iff the input has exactly ten
characters each matched by Python's \d (a Unicode decimal digit,
category Nd — ASCII digits are one case); every other input is rejected
with the invalid-format error, so nothing invalid is stored. -/
theorem phone_parse_ok_iff_ten_unicode_digits (s : String) :
    (parsePhone s = Except.ok s ↔
      s.data.length = 10 ∧ ∀ c ∈ s.data, isPyDigit c = true) ∧
    (¬ (s.data.length = 10 ∧ ∀ c ∈ s.data, isPyDigit c = true) →
      parsePhone s = Except.error "Phone number must be exactly 10 digits.") := by
  have hfmt : phoneFormat s = true ↔
      s.data.length = 10 ∧ ∀ c ∈ s.data, isPyDigit c = true := by
    unfold phoneFormat
    rw [Bool.and_eq_true, beq_iff_eq, List.all_eq_true]
  cases hf : phoneFormat s with
  | true =>
    have hp := hfmt.mp hf
    exact ⟨⟨fun _ => hp, fun _ => parsePhone_ok s hf⟩, fun hn => absurd hp hn⟩
  | false =>
    have hp : ¬ (s.data.length = 10 ∧ ∀ c ∈ s.data, isPyDigit c = true) := by
      intro hc
      rw [hfmt.mpr hc] at hf
      cases hf
    refine ⟨⟨fun h => ?_, fun hc => absurd hc hp⟩, fun _ => parsePhone_err s hf⟩
    rw [parsePhone_err s hf] at h
    exact Except.noConfusion h

/-- Witness for the amended C4 theorem: a three-character input is
rejected with the invalid-format error. -/
theorem phone_parse_ok_iff_ten_unicode_digits_witness :
    parsePhone "123" = Except.error "Phone number must be exactly 10 digits." :=
  (phone_parse_ok_iff_ten_unicode_digits "123").2 (by decide)

/-- C5: birthday parsing has exactly two failure modes, distinguished
as the spec says: a string not matching the two-digits dot two-digits
dot four-digits pattern fails with the invalid-format message; a
matching string whose (day, month, year) is not a real calendar date
fails with the invalid-date message; a real date succeeds. In
particular 29.02.2020 succeeds, 29.02.2021 fails as an invalid date,
and 2021-02-01 fails as an invalid format. -/
theorem birthday_parse_failure_modes :
    (∀ s : String,
      (parseBirthday s = Except.error "Invalid date format. Use DD.MM.YYYY" ↔
        birthdayFormat s = false) ∧
      (parseBirthday s = Except.ok s ↔
        birthdayFormat s = true ∧ birthdayOk s = true) ∧
      (parseBirthday s = Except.error "Invalid date." ↔
        birthdayFormat s = true ∧ birthdayOk s = false)) ∧
    parseBirthday "29.02.2020" = Except.ok "29.02.2020" ∧
    parseBirthday "29.02.2021" = Except.error "Invalid date." ∧
    parseBirthday "2021-02-01" =
      Except.error "Invalid date format. Use DD.MM.YYYY" := by
  have hne : ("Invalid date format. Use DD.MM.YYYY" : String) ≠ "Invalid date." := by
    decide
  refine ⟨fun s => ?_, rfl, rfl, rfl⟩
  rw [parseBirthday_eq s]
  cases hf : birthdayFormat s with
  | false => simp [hne, Ne.symm hne]
  | true =>
    cases hok : birthdayOk s with
    | false => simp [hne, Ne.symm hne]
    | true => simp

/-- C6: edit_phone replaces exactly the first phone equal to old with
new after validating new as a Phone; it fails with the not-found error
when no phone equals old; and on every failure (not-found or invalid
new) the record is left unchanged. -/
theorem edit_phone_contract (r : Record) (old new : String) :
    (old ∉ r.phones →
      Record.edit_phone r old new = (r, some "Phone number not found.")) ∧
    (old ∈ r.phones → phoneFormat new = true →
      ∃ l1 l2, r.phones = l1 ++ old :: l2 ∧ old ∉ l1 ∧
        Record.edit_phone r old new =
          ({ r with phones := l1 ++ new :: l2 }, none)) ∧
    (∀ e, (Record.edit_phone r old new).2 = some e →
      (Record.edit_phone r old new).1 = r) := by
  have hdef : Record.edit_phone r old new =
      ({ r with phones := (edit_list r.phones old new).1 },
        (edit_list r.phones old new).2) := by
    unfold Record.edit_phone
    rcases hE : edit_list r.phones old new with ⟨ps, err⟩
    rfl
  rcases edit_list_spec r.phones old new with ⟨hnm, heq⟩ |
    ⟨l1, l2, hsplit, hn1, ⟨hfmt, heq⟩ | ⟨hfmt, heq⟩⟩
  · refine ⟨fun _ => ?_, fun hmem _ => absurd hmem hnm, fun e h2 => ?_⟩
    · rw [hdef, heq]
    · rw [hdef, heq]
  · have hmem : old ∈ r.phones := by
      rw [hsplit]
      exact List.mem_append_right _ (List.mem_cons_self _ _)
    refine ⟨fun hno => absurd hmem hno,
      fun _ _ => ⟨l1, l2, hsplit, hn1, ?_⟩, fun e h2 => ?_⟩
    · rw [hdef, heq]
    · rw [hdef, heq] at h2
      exact Option.noConfusion h2
  · have hmem : old ∈ r.phones := by
      rw [hsplit]
      exact List.mem_append_right _ (List.mem_cons_self _ _)
    refine ⟨fun hno => absurd hmem hno, fun _ hf => ?_, fun e h2 => ?_⟩
    · rw [hf] at hfmt
      exact Bool.noConfusion hfmt
    · rw [hdef, heq]

/-- Witness for C6 at the spec's example record: a successful edit and
a not-found edit. -/
theorem edit_phone_contract_witness :
    (∃ l1 l2, (["1111111111"] : List String) = l1 ++ "1111111111" :: l2 ∧
      "1111111111" ∉ l1 ∧
      Record.edit_phone ⟨"A", ["1111111111"], none⟩ "1111111111" "2222222222" =
        ({ name := "A", phones := l1 ++ "2222222222" :: l2,
           birthday := none }, none)) ∧
    Record.edit_phone ⟨"A", ["1111111111"], none⟩ "3333333333" "2222222222" =
      (⟨"A", ["1111111111"], none⟩, some "Phone number not found.") :=
  ⟨(edit_phone_contract ⟨"A", ["1111111111"], none⟩ "1111111111" "2222222222").2.1
      (by decide) (by decide),
   (edit_phone_contract ⟨"A", ["1111111111"], none⟩ "3333333333" "2222222222").1
      (by decide)⟩

/-- C9: remove_phone removes every phone equal to the value, keeps
every other phone and the name and birthday, signals no error (it
always returns a record), is a no-op when no phone matches, and is
idempotent. -/
theorem remove_phone_idempotent (r : Record) (v : String) :
    (v ∉ r.phones → Record.remove_phone r v = r) ∧
    Record.remove_phone (Record.remove_phone r v) v = Record.remove_phone r v ∧
    v ∉ (Record.remove_phone r v).phones ∧
    (∀ p ∈ r.phones, p ≠ v → p ∈ (Record.remove_phone r v).phones) ∧
    (Record.remove_phone r v).name = r.name ∧
    (Record.remove_phone r v).birthday = r.birthday := by
  refine ⟨?_, ?_, ?_, ?_, rfl, rfl⟩
  · intro h
    unfold Record.remove_phone
    rw [filter_ne_of_not_mem h]
  · unfold Record.remove_phone
    rw [filter_ne_of_not_mem not_mem_filter_self]
  · exact not_mem_filter_self
  · intro p hp hne
    unfold Record.remove_phone
    refine List.mem_filter.mpr ⟨hp, ?_⟩
    rw [Bool.not_eq_true', beq_eq_false_iff_ne]
    exact hne

/-- Witness for C9: removing an absent number from the spec's example
record is a no-op. -/
theorem remove_phone_idempotent_witness :
    Record.remove_phone ⟨"A", ["1111111111"], none⟩ "2222222222" =
      ⟨"A", ["1111111111"], none⟩ :=
  (remove_phone_idempotent ⟨"A", ["1111111111"], none⟩ "2222222222").1 (by decide)

/-- edit_phone projected to its list action. -/
theorem edit_phone_def (r : Record) (old new : String) :
    Record.edit_phone r old new =
      ({ r with phones := (edit_list r.phones old new).1 },
        (edit_list r.phones old new).2) := by
  unfold Record.edit_phone
  rcases hE : edit_list r.phones old new with ⟨ps, err⟩
  rfl

/-- A failing add_phone leaves the record unchanged. -/
theorem add_phone_fail_unchanged {r : Record} {p e : String}
    (h : (Record.add_phone r p).2 = some e) : (Record.add_phone r p).1 = r := by
  cases hf : phoneFormat p with
  | true =>
    rw [add_phone_ok r p hf] at h
    exact Option.noConfusion h
  | false =>
    rw [add_phone_err r p hf]

/-- add_phone keeps the all-phones-valid property. -/
theorem RecordOK_add_phone {r : Record} (p : String) (h : RecordOK r) :
    RecordOK (Record.add_phone r p).1 := by
  cases hf : phoneFormat p with
  | true =>
    rw [add_phone_ok r p hf]
    intro q hq
    rcases List.mem_append.mp hq with h1 | h1
    · exact h q h1
    · rw [List.mem_singleton] at h1
      subst h1
      exact hf
  | false =>
    rw [add_phone_err r p hf]
    exact h

/-- The edit loop keeps the all-phones-valid property. -/
theorem PhonesOK_edit (l : List String) (old new : String) (h : PhonesOK l) :
    PhonesOK (edit_list l old new).1 := by
  rcases edit_list_spec l old new with ⟨_, heq⟩ |
    ⟨l1, l2, hsplit, _, ⟨hfmt, heq⟩ | ⟨_, heq⟩⟩
  · rw [heq]
    exact h
  · rw [heq]
    subst hsplit
    intro q hq
    rcases List.mem_append.mp hq with h1 | h1
    · exact h q (List.mem_append_left _ h1)
    · rcases List.mem_cons.mp h1 with rfl | h2
      · exact hfmt
      · exact h q (List.mem_append_right _ (List.mem_cons_of_mem _ h2))
  · rw [heq]
    exact h

/-- A failing edit loop leaves the list unchanged. -/
theorem edit_list_fail_unchanged {l : List String} {old new e : String}
    (h : (edit_list l old new).2 = some e) : (edit_list l old new).1 = l := by
  rcases edit_list_spec l old new with ⟨_, heq⟩ |
    ⟨l1, l2, hsplit, _, ⟨_, heq⟩ | ⟨_, heq⟩⟩
  · rw [heq]
  · rw [heq] at h
    exact Option.noConfusion h
  · rw [heq]

/-- edit_phone keeps the all-phones-valid property. -/
theorem RecordOK_edit {r : Record} (old new : String) (h : RecordOK r) :
    RecordOK (Record.edit_phone r old new).1 := by
  rw [edit_phone_def]
  exact PhonesOK_edit r.phones old new h

/-- A failing edit_phone leaves the record unchanged. -/
theorem edit_phone_fail_unchanged {r : Record} {old new e : String}
    (h : (Record.edit_phone r old new).2 = some e) :
    (Record.edit_phone r old new).1 = r := by
  rw [edit_phone_def] at h ⊢
  rw [edit_list_fail_unchanged h]

/-- remove_phone keeps the all-phones-valid property. -/
theorem RecordOK_remove {r : Record} (v : String) (h : RecordOK r) :
    RecordOK (Record.remove_phone r v) := by
  intro q hq
  exact h q (List.mem_of_mem_filter hq)

/-- add_birthday does not touch the phone list. -/
theorem add_birthday_phones (r : Record) (s : String) :
    (Record.add_birthday r s).1.phones = r.phones := by
  unfold Record.add_birthday
  cases parseBirthday s <;> rfl

/-- add_birthday keeps the all-phones-valid property. -/
theorem RecordOK_add_birthday {r : Record} (s : String) (h : RecordOK r) :
    RecordOK (Record.add_birthday r s).1 := by
  intro q hq
  rw [add_birthday_phones] at hq
  exact h q hq

/-- add_record keeps the book invariant when the record is valid. -/
theorem BookOK_add_record {book : AddressBook} {r : Record}
    (hb : BookOK book) (hr : RecordOK r) : BookOK (add_record book r) := by
  unfold add_record
  split
  · intro x hx
    obtain ⟨a, ha, hax⟩ := List.mem_map.mp hx
    by_cases hc : (a.name == r.name) = true
    · rw [if_pos hc] at hax
      exact hax ▸ hr
    · rw [if_neg hc] at hax
      exact hax ▸ hb a ha
  · intro x hx
    rcases List.mem_append.mp hx with h1 | h1
    · exact hb x h1
    · rw [List.mem_singleton] at h1
      exact h1 ▸ hr

/-- delete keeps the book invariant. -/
theorem BookOK_delete {book : AddressBook} (n : String) (hb : BookOK book) :
    BookOK (delete book n) := by
  intro x hx
  exact hb x (List.mem_of_mem_filter hx)

/-- The add command keeps the book invariant, also on failure. -/
theorem BookOK_cmd_add {book : AddressBook} (n p : String) (hb : BookOK book) :
    BookOK (cmd_add book n p).1 := by
  unfold cmd_add
  cases hfind : find book n with
  | some r0 =>
    exact BookOK_add_record hb (RecordOK_add_phone p (hb r0 (find_some hfind).1))
  | none =>
    have hr0 : RecordOK (⟨n, [], none⟩ : Record) := fun q hq =>
      absurd hq (List.not_mem_nil q)
    exact BookOK_add_record (BookOK_add_record hb hr0) (RecordOK_add_phone p hr0)

/-- The change command keeps the book invariant, also on failure. -/
theorem BookOK_cmd_change {book : AddressBook} (n old new : String)
    (hb : BookOK book) : BookOK (cmd_change book n old new).1 := by
  unfold cmd_change
  cases hfind : find book n with
  | some r0 =>
    exact BookOK_add_record hb (RecordOK_edit old new (hb r0 (find_some hfind).1))
  | none => exact hb

/-- The add-birthday command keeps the book invariant. -/
theorem BookOK_cmd_add_birthday {book : AddressBook} (n s : String)
    (hb : BookOK book) : BookOK (cmd_add_birthday book n s).1 := by
  unfold cmd_add_birthday
  cases hfind : find book n with
  | some r0 =>
    exact BookOK_add_record hb (RecordOK_add_birthday s (hb r0 (find_some hfind).1))
  | none => exact hb

/-- C7: every operation preserves the invariant that each stored phone
value satisfies the ten-digit format, and the phone-mutating operations
validate before mutating, so a failing call stores nothing and leaves
the record, and hence the book, unchanged. -/
theorem phone_format_invariant :
    (∀ (r : Record) (p : String), RecordOK r →
      RecordOK (Record.add_phone r p).1) ∧
    (∀ (r : Record) (p e : String), (Record.add_phone r p).2 = some e →
      (Record.add_phone r p).1 = r) ∧
    (∀ (r : Record) (old new : String), RecordOK r →
      RecordOK (Record.edit_phone r old new).1) ∧
    (∀ (r : Record) (old new e : String),
      (Record.edit_phone r old new).2 = some e →
      (Record.edit_phone r old new).1 = r) ∧
    (∀ (r : Record) (v : String), RecordOK r →
      RecordOK (Record.remove_phone r v)) ∧
    (∀ (r : Record) (s : String), RecordOK r →
      RecordOK (Record.add_birthday r s).1) ∧
    (∀ (book : AddressBook) (n p : String), BookOK book →
      BookOK (cmd_add book n p).1) ∧
    (∀ (book : AddressBook) (n old new : String), BookOK book →
      BookOK (cmd_change book n old new).1) ∧
    (∀ (book : AddressBook) (n s : String), BookOK book →
      BookOK (cmd_add_birthday book n s).1) ∧
    (∀ (book : AddressBook) (n : String), BookOK book →
      BookOK (delete book n)) :=
  ⟨fun _ p h => RecordOK_add_phone p h,
   fun _ _ _ h => add_phone_fail_unchanged h,
   fun _ old new h => RecordOK_edit old new h,
   fun _ _ _ _ h => edit_phone_fail_unchanged h,
   fun _ v h => RecordOK_remove v h,
   fun _ s h => RecordOK_add_birthday s h,
   fun _ n p h => BookOK_cmd_add n p h,
   fun _ n old new h => BookOK_cmd_change n old new h,
   fun _ n s h => BookOK_cmd_add_birthday n s h,
   fun _ n h => BookOK_delete n h⟩

/-- Witness for C7 at concrete empty-record and empty-book inputs. -/
theorem phone_format_invariant_witness :
    RecordOK (Record.add_phone ⟨"A", [], none⟩ "1234567890").1 ∧
    BookOK (cmd_add [] "A" "1234567890").1 :=
  ⟨phone_format_invariant.1 ⟨"A", [], none⟩ "1234567890"
      (fun q hq => absurd hq (List.not_mem_nil q)),
   phone_format_invariant.2.2.2.2.2.2.1 [] "A" "1234567890"
      (fun r hr => absurd hr (List.not_mem_nil r))⟩

/-- C8: two add commands with the same, previously absent, name and two
different valid phones both succeed and leave exactly one record under
that name, holding both phones in the order they were added; the book
grows by one record in total. -/
theorem add_twice_same_name (book : AddressBook) (n p1 p2 : String)
    (hfresh : find book n = none) (h1 : phoneFormat p1 = true)
    (h2 : phoneFormat p2 = true) (_hne : p1 ≠ p2) :
    (cmd_add book n p1).2 = none ∧
    (cmd_add (cmd_add book n p1).1 n p2).2 = none ∧
    find (cmd_add (cmd_add book n p1).1 n p2).1 n =
      some ⟨n, [p1, p2], none⟩ ∧
    (cmd_add (cmd_add book n p1).1 n p2).1.length = book.length + 1 ∧
    List.countP (fun r => r.name == n)
      (cmd_add (cmd_add book n p1).1 n p2).1 = 1 := by
  have hnames : ∀ x ∈ book, x.name ≠ n := find_none hfresh
  have e1 : cmd_add book n p1 = (book ++ [⟨n, [p1], none⟩], none) := by
    unfold cmd_add
    rw [hfresh]
    simp only [add_phone_ok _ p1 h1, List.nil_append]
    rw [add_record_fresh fun x hx => hnames x hx,
      @add_record_replace book ⟨n, [], none⟩ ⟨n, [p1], none⟩
        (fun x hx => hnames x hx) rfl]
  have hfind1 : find (book ++ [⟨n, [p1], none⟩]) n = some ⟨n, [p1], none⟩ :=
    find_append_fresh hnames rfl
  have e2 : cmd_add (book ++ [⟨n, [p1], none⟩]) n p2 =
      (book ++ [⟨n, [p1, p2], none⟩], none) := by
    unfold cmd_add
    rw [hfind1]
    simp only [add_phone_ok _ p2 h2, List.cons_append, List.nil_append]
    rw [@add_record_replace book ⟨n, [p1], none⟩ ⟨n, [p1, p2], none⟩
      (fun x hx => hnames x hx) rfl]
  have hc0 : List.countP (fun r => r.name == n) book = 0 :=
    List.countP_eq_zero.mpr fun r hr => by
      show ¬ (r.name == n) = true
      rw [beq_iff_eq]
      exact hnames r hr
  refine ⟨by rw [e1], ?_, ?_, ?_, ?_⟩
  · rw [e1]
    show (cmd_add (book ++ [⟨n, [p1], none⟩]) n p2).2 = none
    rw [e2]
  · rw [e1]
    show find (cmd_add (book ++ [⟨n, [p1], none⟩]) n p2).1 n =
      some ⟨n, [p1, p2], none⟩
    rw [e2]
    exact find_append_fresh hnames rfl
  · rw [e1]
    show (cmd_add (book ++ [⟨n, [p1], none⟩]) n p2).1.length = book.length + 1
    rw [e2]
    simp
  · rw [e1]
    show List.countP (fun r => r.name == n)
        (cmd_add (book ++ [⟨n, [p1], none⟩]) n p2).1 = 1
    rw [e2, List.countP_append, hc0, List.countP_cons, List.countP_nil,
      if_pos (beq_self_eq_true n)]

/-- Witness for C8 on the empty book with two concrete phones. -/
theorem add_twice_same_name_witness :
    find (cmd_add (cmd_add [] "Bob" "1111111111").1 "Bob" "2222222222").1 "Bob" =
      some ⟨"Bob", ["1111111111", "2222222222"], none⟩ :=
  (add_twice_same_name [] "Bob" "1111111111" "2222222222" rfl
    (by decide) (by decide) (by decide)).2.2.1

/-- C1: a record with a stored birthday is included in the
upcoming-birthdays query exactly when the gap in days between its
celebration occurrence and today is at most the 7-day window,
inclusive; the occurrence is this year's (day, month), rolled to next
year's when strictly before today. -/
theorem upcoming_included_iff_within_window
    (book : AddressBook) (today : Date) (out : List (String × Date))
    (r : Record) (s : String) (d m yy : Nat) (bty : Date)
    (hnd : (book.map Record.name).Nodup)
    (hok : upcomingList today book = Except.ok out)
    (hr : r ∈ book) (hb : r.birthday = some s)
    (hp : birthdayParts s = some (d, m, yy))
    (hocc : occurrence today m d = some bty) :
    (∃ g, (r.name, g) ∈ out) ↔
      (toOrdinal bty : Int) - (toOrdinal today : Int) ≤ 7 := by
  have hpe := processRecord_eq hb hp hocc
  constructor
  · rintro ⟨g, hg⟩
    obtain ⟨r', hr', hpr'⟩ := upcomingList_mem_src hok hg
    have hname : r'.name = r.name := (processRecord_name hpr').symm
    have heqr : r' = r := mem_name_unique hnd hr' hr hname
    subst heqr
    rw [hpe] at hpr'
    by_cases hd7 : (toOrdinal bty : Int) - (toOrdinal today : Int) ≤ 7
    · exact hd7
    · rw [if_neg hd7, Except.ok.injEq] at hpr'
      exact Option.noConfusion hpr'
  · intro hd7
    obtain ⟨res, hres, hmem⟩ := upcomingList_ok_of_mem hok hr
    rw [hpe, if_pos hd7] at hres
    by_cases hyr : (greetingDay bty).year ≤ 9999
    · rw [if_pos hyr, Except.ok.injEq] at hres
      exact ⟨greetingDay bty, hmem _ hres.symm⟩
    · rw [if_neg hyr] at hres
      exact Except.noConfusion hres

/-- Witness for C1 with today = 01.01.2024: a birthday on 08.01.2024
(7 days away) is included, one on 09.01.2024 (8 days away) is not. -/
theorem upcoming_included_iff_within_window_witness :
    (∃ g, (("A" : String), g) ∈
      ([("A", (⟨2024, 1, 8⟩ : Date))] : List (String × Date))) ∧
    ¬ (∃ g, (("B" : String), g) ∈
      ([("A", (⟨2024, 1, 8⟩ : Date))] : List (String × Date))) := by
  constructor
  · exact (upcoming_included_iff_within_window
      [⟨"A", [], some "08.01.2024"⟩, ⟨"B", [], some "09.01.2024"⟩]
      ⟨2024, 1, 1⟩ [("A", ⟨2024, 1, 8⟩)]
      ⟨"A", [], some "08.01.2024"⟩ "08.01.2024" 8 1 2024 ⟨2024, 1, 8⟩
      (by decide) rfl (by decide) rfl rfl rfl).mpr (by decide)
  · intro hex
    have h8 := (upcoming_included_iff_within_window
      [⟨"A", [], some "08.01.2024"⟩, ⟨"B", [], some "09.01.2024"⟩]
      ⟨2024, 1, 1⟩ [("A", ⟨2024, 1, 8⟩)]
      ⟨"B", [], some "09.01.2024"⟩ "09.01.2024" 9 1 2024 ⟨2024, 1, 9⟩
      (by decide) rfl (by decide) rfl rfl rfl).mp hex
    exact absurd h8 (by decide)

/-- C2: an included record's reported celebration date is the computed
occurrence shifted to the following Monday when that occurrence falls
on Saturday (weekday 5, shifted by 2 days) or Sunday (weekday 6,
shifted by 1 day), and is the unshifted occurrence otherwise; the
inclusion decision itself uses the unshifted days-until value. -/
theorem upcoming_weekend_shift
    (book : AddressBook) (today : Date) (out : List (String × Date))
    (r : Record) (s : String) (d m yy : Nat) (bty : Date)
    (hok : upcomingList today book = Except.ok out)
    (hr : r ∈ book) (hb : r.birthday = some s)
    (hp : birthdayParts s = some (d, m, yy))
    (hocc : occurrence today m d = some bty)
    (hincl : (toOrdinal bty : Int) - (toOrdinal today : Int) ≤ 7) :
    ∃ g, (r.name, g) ∈ out ∧
      (weekday bty = 5 → g = addDays bty 2 ∧ weekday g = 0) ∧
      (weekday bty = 6 → g = addDays bty 1 ∧ weekday g = 0) ∧
      (weekday bty < 5 → g = bty) := by
  obtain ⟨res, hres, hmem⟩ := upcomingList_ok_of_mem hok hr
  rw [processRecord_eq hb hp hocc, if_pos hincl] at hres
  by_cases hyr : (greetingDay bty).year ≤ 9999
  swap
  · rw [if_neg hyr] at hres
    exact Except.noConfusion hres
  rw [if_pos hyr, Except.ok.injEq] at hres
  have hbOk : DateOk bty := (occurrence_ok hocc).1
  refine ⟨greetingDay bty, hmem _ hres.symm, ?_, ?_, ?_⟩
  · intro h5
    have hg : greetingDay bty = addDays bty 2 := by
      unfold greetingDay
      rw [h5]
      norm_num
    refine ⟨hg, ?_⟩
    rw [hg]
    have ho := (toOrdinal_addDays bty hbOk 2).1
    have h5' : (toOrdinal bty + 6) % 7 = 5 := h5
    unfold weekday
    rw [ho]
    omega
  · intro h6
    have hg : greetingDay bty = addDays bty 1 := by
      unfold greetingDay
      rw [h6]
      norm_num
    refine ⟨hg, ?_⟩
    rw [hg]
    have ho := (toOrdinal_addDays bty hbOk 1).1
    have h6' : (toOrdinal bty + 6) % 7 = 6 := h6
    unfold weekday
    rw [ho]
    omega
  · intro hlt
    unfold greetingDay
    rw [if_neg (by omega)]

/-- Witness for C2: with today = 01.01.2024, a birthday landing on
Saturday 06.01.2024 is reported on Monday 08.01.2024 while included on
the unshifted 5-day gap. -/
theorem upcoming_weekend_shift_witness :
    ∃ g, (("C" : String), g) ∈
        ([("C", (⟨2024, 1, 8⟩ : Date))] : List (String × Date)) ∧
      (weekday ⟨2024, 1, 6⟩ = 5 → g = addDays ⟨2024, 1, 6⟩ 2 ∧ weekday g = 0) ∧
      (weekday ⟨2024, 1, 6⟩ = 6 → g = addDays ⟨2024, 1, 6⟩ 1 ∧ weekday g = 0) ∧
      (weekday ⟨2024, 1, 6⟩ < 5 → g = ⟨2024, 1, 6⟩) :=
  upcoming_weekend_shift [⟨"C", [], some "06.01.2024"⟩] ⟨2024, 1, 1⟩
    [("C", ⟨2024, 1, 8⟩)] ⟨"C", [], some "06.01.2024"⟩ "06.01.2024" 6 1 2024
    ⟨2024, 1, 6⟩ rfl (by decide) rfl rfl rfl (by decide)

/-- C10: a record whose stored birthday's (day, month) equals today's
is included by the query: the current-year occurrence equals today, is
not rolled forward (only strictly earlier dates are), and its
days-until value 0 satisfies the inclusive 7-day window. -/
theorem upcoming_includes_today
    (book : AddressBook) (today : Date) (out : List (String × Date))
    (r : Record) (s : String) (yy : Nat)
    (hok : upcomingList today book = Except.ok out)
    (hr : r ∈ book) (hb : r.birthday = some s)
    (hp : birthdayParts s = some (today.day, today.month, yy))
    (htv : dateValid today.year today.month today.day = true) :
    ∃ g, (r.name, g) ∈ out := by
  have hocc : occurrence today today.month today.day = some today := by
    unfold occurrence mkDate
    rw [if_pos htv]
    show (if toOrdinal today < toOrdinal today then
      if dateValid (today.year + 1) today.month today.day = true then
        some ⟨today.year + 1, today.month, today.day⟩
      else none
    else some today) = some today
    rw [if_neg (lt_irrefl _)]
  obtain ⟨res, hres, hmem⟩ := upcomingList_ok_of_mem hok hr
  rw [processRecord_eq hb hp hocc,
    if_pos (by omega :
      (toOrdinal today : Int) - (toOrdinal today : Int) ≤ 7)] at hres
  by_cases hyr : (greetingDay today).year ≤ 9999
  · rw [if_pos hyr, Except.ok.injEq] at hres
    exact ⟨greetingDay today, hmem _ hres.symm⟩
  · rw [if_neg hyr] at hres
    exact Except.noConfusion hres

/-- Witness for C10: a birthday stored as 01.01.2024 is reported when
today is 01.01.2024. -/
theorem upcoming_includes_today_witness :
    ∃ g, (("T" : String), g) ∈
      ([("T", (⟨2024, 1, 1⟩ : Date))] : List (String × Date)) :=
  upcoming_includes_today [⟨"T", [], some "01.01.2024"⟩] ⟨2024, 1, 1⟩
    [("T", ⟨2024, 1, 1⟩)] ⟨"T", [], some "01.01.2024"⟩ "01.01.2024" 2024
    rfl (by decide) rfl rfl (by decide)

/-- C3: a reachable address-book state on which the query signals an
error instead of returning a result: add a contact with a valid phone,
store the birthday 29.02.2020 (accepted by the validators), and run the
query on a day of the non-leap year 2023 — datetime(2023, 2, 29) fails,
so get_upcoming_birthdays raises instead of computing the next
occurrence. -/
theorem upcoming_raises_on_feb29 :
    parseBirthday "29.02.2020" = Except.ok "29.02.2020" ∧
    (cmd_add [] "Alice" "1234567890").2 = none ∧
    (cmd_add_birthday (cmd_add [] "Alice" "1234567890").1
        "Alice" "29.02.2020").2 = none ∧
    isLeap 2023 = false ∧
    get_upcoming_birthdays ⟨2023, 1, 10⟩
        (cmd_add_birthday (cmd_add [] "Alice" "1234567890").1
          "Alice" "29.02.2020").1 =
      Except.error "day is out of range for month" :=
  ⟨rfl, rfl, rfl, rfl, rfl⟩

end ContactBook
